import Mathlib

/-!
# Verification of the english-learning-api dictionary core

Shallow embedding of the dictionary service of the repository
`lmduc2309/english-learning-api`:

* `AudioService` (`fetchAudioFromFreeDictionary`, `getAudioUrl`) from
  `src/unnamed/part_003` (audio.service.ts),
* `DictionaryService` (`lookupWord`, `findWordInDatabase`,
  `generateWordWithLLM`, `importWordData`) from
  `src/src/dictionary/dictionary.service.ts`.

The persistent store (TypeORM repositories over the `words`,
`pronunciations`, `definitions`, `examples`, `word_forms`, `synonyms`
tables) is embedded as a record of row lists with a global id counter;
external HTTP collaborators (the free-dictionary phonetics endpoint and
the vLLM completion endpoint) are oracles passed in as functions.
JavaScript truthiness on optional strings (`undefined` and `""` are
falsy) is embedded explicitly as `truthy`.
-/

namespace EnglishLearning

/-- JS truthiness of an optional string: `undefined`/`null` and the empty
string are falsy, every other string is truthy. -/
def truthy (o : Option String) : Bool := o.getD "" != ""

/-- JS `a || b` on optional strings: `a` when truthy, else `b`. -/
def jsOr (a b : Option String) : Option String := if truthy a then a else b

/-- Whether `pat` is a prefix of `s` (on character lists). -/
def beginsWith : List Char → List Char → Bool
  | _, [] => true
  | [], _ :: _ => false
  | a :: s, b :: t => a = b && beginsWith s t

/-- Whether `pat` occurs somewhere in `s` (on character lists). -/
def occursIn (s pat : List Char) : Bool :=
  match s with
  | [] => pat.isEmpty
  | _ :: rest => beginsWith s pat || occursIn rest pat

/-- JS `String.prototype.includes`: `pat` occurs as a substring of
`s`. -/
def containsSub (s pat : String) : Bool := occursIn s.data pat.data

/-- JS `String.prototype.toLowerCase`, character by character. -/
def jsToLower (s : String) : String := (s.data.map Char.toLower).asString

/-- JS `String.prototype.trim`: strip leading and trailing
whitespace. -/
def jsTrim (s : String) : String :=
  ((s.data.dropWhile Char.isWhitespace).reverse.dropWhile
    Char.isWhitespace).reverse.asString

/-! ## AudioService (src/unnamed/part_003) -/

/-- One element of a `phonetics` array of the free-dictionary API
response: `{ text?: string; audio?: string }`. -/
structure Phonetic where
  text : Option String
  audio : Option String
deriving Repr, DecidableEq

/-- One entry of the free-dictionary API response:
`{ word: string; phonetics: Phonetic[] }`. -/
structure FDEntry where
  word : String
  phonetics : List Phonetic
deriving Repr, DecidableEq

/-- The `result : { us?: string; uk?: string }` accumulator of
`fetchAudioFromFreeDictionary`. -/
structure AudioResult where
  us : Option String
  uk : Option String
deriving Repr, DecidableEq

/-- The body of the inner classification loop of
`AudioService.fetchAudioFromFreeDictionary`, for one truthy audio URL:
US patterns first, UK patterns next, otherwise default into the US
bucket when both buckets are still falsy. -/
def classifyAudio (r : AudioResult) (audioUrl : String) : AudioResult :=
  if containsSub audioUrl "-us.mp3" || containsSub audioUrl "/us/" then
    { r with us := some audioUrl }
  else if containsSub audioUrl "-uk.mp3" || containsSub audioUrl "/uk/" then
    { r with uk := some audioUrl }
  else if !truthy r.us && !truthy r.uk then
    { r with us := some audioUrl }
  else
    r

/-- The inner `for (const phonetic of entry.phonetics)` loop: each
phonetic with a truthy `audio` field is classified, the rest are
skipped. -/
def classifyPhonetics (r : AudioResult) : List Phonetic → AudioResult
  | [] => r
  | ph :: rest =>
      let r' := if truthy ph.audio then classifyAudio r (ph.audio.getD "") else r
      classifyPhonetics r' rest

/-- The outer `for (const entry of data)` loop (the
`entry.phonetics && entry.phonetics.length > 0` guard is redundant for
the fold: an empty phonetics list leaves the accumulator unchanged). -/
def classifyEntries (r : AudioResult) : List FDEntry → AudioResult
  | [] => r
  | e :: rest => classifyEntries (classifyPhonetics r e.phonetics) rest

/-- The method `AudioService.fetchAudioFromFreeDictionary`, over an oracle
response:
a failed HTTP call (`.error`) is caught and yields the empty result, an
empty response list yields the empty result, otherwise the entries are
classified into the two accent buckets. -/
def fetchAudioFromFreeDictionary (resp : Except Unit (List FDEntry)) : AudioResult :=
  match resp with
  | .error _ => ⟨none, none⟩
  | .ok data =>
      if data.isEmpty then ⟨none, none⟩
      else classifyEntries ⟨none, none⟩ data

/-- The method `AudioService.getAudioUrl`: fetch both buckets, then
`us || uk || null` for a US request and `uk || us || null` otherwise
(the TypeScript `accent` parameter is a string compared against
`"US"`). -/
def getAudioUrl (resp : Except Unit (List FDEntry)) (accent : String) : Option String :=
  let audioUrls := fetchAudioFromFreeDictionary resp
  if accent = "US" then jsOr audioUrls.us (jsOr audioUrls.uk none)
  else jsOr audioUrls.uk (jsOr audioUrls.us none)

/-! ## Data model (TypeORM entities as row lists) -/

/-- A row of the `words` table (`word.entity.ts`). -/
structure WordRow where
  id : Nat
  word : String
  wordNormalized : String
  language : String
  frequencyRank : Option Int
  partOfSpeech : List String
deriving Repr, DecidableEq

/-- A row of the `pronunciations` table (`pronunciation.entity.ts`). -/
structure PronRow where
  id : Nat
  wordId : Nat
  accent : String
  ipa : String
  audioUrl : Option String
deriving Repr, DecidableEq

/-- A row of the `definitions` table (`definition.entity.ts`). -/
structure DefRow where
  id : Nat
  wordId : Nat
  partOfSpeech : String
  definitionEn : String
  definitionVi : String
  level : String
  definitionOrder : Nat
deriving Repr, DecidableEq

/-- A row of the `examples` table (`example.entity.ts`). -/
structure ExampleRow where
  id : Nat
  definitionId : Nat
  exampleEn : String
  exampleVi : String
deriving Repr, DecidableEq

/-- A row of the `word_forms` table (`word-form.entity.ts`). -/
structure WordFormRow where
  id : Nat
  wordId : Nat
  formType : String
  formWord : String
deriving Repr, DecidableEq

/-- A row of the `synonyms` table (`synonym.entity.ts`). -/
structure SynonymRow where
  id : Nat
  wordId : Nat
  synonymWord : String
deriving Repr, DecidableEq

/-- The persistent store: one list per table, plus the next generated
primary-key value. -/
structure Db where
  nextId : Nat
  words : List WordRow
  pronunciations : List PronRow
  definitions : List DefRow
  examples : List ExampleRow
  wordForms : List WordFormRow
  synonyms : List SynonymRow
deriving Repr, DecidableEq

/-! ## Import payload (the `data` argument of `importWordData`) -/

/-- One element of the `pronunciations` array of the payload. -/
structure PronPayload where
  accent : String
  ipa : String
  audio_url : Option String
deriving Repr, DecidableEq

/-- One element of the `examples` array of a payload definition. -/
structure ExamplePayload where
  en : String
  vi : String
deriving Repr, DecidableEq

/-- One element of the `definitions` array of the payload. -/
structure DefPayload where
  pos : String
  definition_en : String
  definition_vi : String
  level : Option String
  examples : List ExamplePayload
deriving Repr, DecidableEq

/-- The import payload. Optional arrays are embedded as plain lists:
an absent array and an empty array drive the code identically (the
`if (xs && xs.length > 0)` guards skip a loop that would do nothing).
`word_forms` is a JS object, embedded as its entry list. -/
structure ImportPayload where
  word : String
  word_normalized : Option String
  language : Option String
  frequency_rank : Option Int
  pronunciations : List PronPayload
  definitions : List DefPayload
  synonyms : List String
  word_forms : List (String × String)
deriving Repr, DecidableEq

/-! ## importWordData (dictionary.service.ts lines 399-520) -/

/-- Whether `pronunciationRepository.findOne({ where: { wordId, accent } })`
returns a row. -/
def hasPron (db : Db) (wid : Nat) (accent : String) : Bool :=
  db.pronunciations.any (fun r => r.wordId = wid && r.accent = accent)

/-- Whether `wordFormRepository.findOne({ where: { wordId, formType } })`
returns a row. -/
def hasForm (db : Db) (wid : Nat) (formType : String) : Bool :=
  db.wordForms.any (fun r => r.wordId = wid && r.formType = formType)

/-- Whether `synonymRepository.findOne({ where: { wordId, synonymWord } })`
returns a row. -/
def hasSyn (db : Db) (wid : Nat) (syn : String) : Bool :=
  db.synonyms.any (fun r => r.wordId = wid && r.synonymWord = syn)

/-- Phase `// Import pronunciations`: for each payload pronunciation, look for
an existing row with the same `(wordId, accent)` and insert only when
absent. Each check runs against the store as already extended by the
earlier iterations of the same call. -/
def importProns (wid : Nat) : List PronPayload → Db → Db
  | [], db => db
  | p :: rest, db =>
      if hasPron db wid p.accent then
        importProns wid rest db
      else
        importProns wid rest
          { db with
            nextId := db.nextId + 1,
            pronunciations := db.pronunciations ++
              [⟨db.nextId, wid, p.accent, p.ipa, p.audio_url⟩] }

/-- Phase `// Import examples for this definition`: unconditional inserts. -/
def importExamples (defId : Nat) : List ExamplePayload → Db → Db
  | [], db => db
  | ex :: rest, db =>
      importExamples defId rest
        { db with
          nextId := db.nextId + 1,
          examples := db.examples ++ [⟨db.nextId, defId, ex.en, ex.vi⟩] }

/-- Phase `// Import definitions`: the loop body at index `i` appends a
definition row with `definitionOrder := i + 1` and `level` defaulted to
`"intermediate"`, then inserts its examples. No existence check is
made. -/
def importDefsFrom (wid i : Nat) : List DefPayload → Db → Db
  | [], db => db
  | d :: rest, db =>
      let defId := db.nextId
      let db' : Db :=
        { db with
          nextId := defId + 1,
          definitions := db.definitions ++
            [⟨defId, wid, d.pos, d.definition_en, d.definition_vi,
              d.level.getD "intermediate", i + 1⟩] }
      importDefsFrom wid (i + 1) rest (importExamples defId d.examples db')

/-- Phase `// Import word forms`: check `(wordId, formType)` before insert. -/
def importForms (wid : Nat) : List (String × String) → Db → Db
  | [], db => db
  | (formType, formWord) :: rest, db =>
      if hasForm db wid formType then
        importForms wid rest db
      else
        importForms wid rest
          { db with
            nextId := db.nextId + 1,
            wordForms := db.wordForms ++ [⟨db.nextId, wid, formType, formWord⟩] }

/-- Phase `// Import synonyms`: check `(wordId, synonymWord)` before insert. -/
def importSyns (wid : Nat) : List String → Db → Db
  | [], db => db
  | syn :: rest, db =>
      if hasSyn db wid syn then
        importSyns wid rest db
      else
        importSyns wid rest
          { db with
            nextId := db.nextId + 1,
            synonyms := db.synonyms ++ [⟨db.nextId, wid, syn⟩] }

/-- The four sub-record import phases of `importWordData`, in source
order: pronunciations, then definitions (with examples), then word
forms, then synonyms, all against the word row `wid`. -/
def importPhases (wid : Nat) (data : ImportPayload) (db : Db) : Db :=
  importSyns wid data.synonyms
    (importForms wid data.word_forms
      (importDefsFrom wid 0 data.definitions
        (importProns wid data.pronunciations db)))

/-- The word row created by `wordRepository.create` when no row exists
for the literal word: `wordNormalized` defaults to the lowercased word,
`language` to `"en"`, and `partOfSpeech` to the `pos` values of the
payload definitions (`definitions?.map(d => d.pos) || []`). -/
def newWordRow (data : ImportPayload) (id : Nat) : WordRow :=
  ⟨id, data.word,
    data.word_normalized.getD (jsToLower data.word),
    data.language.getD "en",
    data.frequency_rank,
    data.definitions.map (·.pos)⟩

/-- The method `DictionaryService.importWordData`: find the row for the literal
word (`findOne({ where: { word } })`), create it when absent, then run
the four import phases. Returns the updated store together with the
`{ success: true, word }` result. -/
def importWordData (data : ImportPayload) (db : Db) : Db × String :=
  match db.words.find? (fun r => r.word = data.word) with
  | some r => (importPhases r.id data db, data.word)
  | none =>
      (importPhases db.nextId data
        { db with
          nextId := db.nextId + 1,
          words := db.words ++ [newWordRow data db.nextId] }, data.word)

/-! ## JSON extraction and generative fallback
(dictionary.service.ts lines 221-306) -/

/-- The opening brace character (written by code point to keep brace
characters out of the literals). -/
def lbrace : Char := Char.ofNat 123

/-- The closing brace character. -/
def rbrace : Char := Char.ofNat 125

/-- The regex match `generatedText.match(/\x7b[\s\S]*\x7d/)` on a
character list: the (greedy) match runs from the first opening brace to
the last closing brace, and exists exactly when some opening brace is
followed by a later closing brace. -/
def extractBraced (cs : List Char) : Option (List Char) :=
  if ((cs.dropWhile (· ≠ lbrace)).reverse.dropWhile (· ≠ rbrace)).isEmpty then
    none
  else
    some ((cs.dropWhile (· ≠ lbrace)).reverse.dropWhile (· ≠ rbrace)).reverse

/-- String-level wrapper of `extractBraced`. -/
def extractJson (s : String) : Option String :=
  (extractBraced s.data).map List.asString

/-- Whether `generatedText` has a `\x7b ... \x7d` pair: some closing brace occurs
after the first opening brace (if the first opening brace is not
followed by one, no later opening brace is either). -/
def hasBracePair (cs : List Char) : Bool :=
  ((cs.dropWhile (· ≠ lbrace)).drop 1).contains rbrace

/-- The error outcomes of the dictionary service that the embedded
claims distinguish: the classified `HttpException` with message
`Failed to parse dictionary data` thrown when no JSON object is found in a
completion. -/
inductive DictError where
  | generationUnparsable
deriving Repr, DecidableEq

/-- The parsing tail of `DictionaryService.generateWordWithLLM`, for a
given completion-endpoint oracle `llm` (mapping the looked-up word to
`choices[0].text`): trim the completion, extract the braced substring,
and fail with the classified error when there is none. The `JSON.parse`
step is kept at the text level: the extracted object text is returned. -/
def generateWordWithLLM (llm : String → String) (word : String) :
    Except DictError String :=
  match extractJson (jsTrim (llm word)) with
  | none => .error .generationUnparsable
  | some j => .ok j

/-! ## findWordInDatabase (dictionary.service.ts lines 146-216) -/

/-- One element of the `pronunciations` array of the response:
`{ accent, ipa, audio_url }`. -/
structure PronOut where
  accent : String
  ipa : String
  audio_url : Option String
deriving Repr, DecidableEq

/-- One element of the `examples` array of a response definition. -/
structure ExampleOut where
  en : String
  vi : String
deriving Repr, DecidableEq

/-- One element of the `definitions` array of the response. -/
structure DefOut where
  pos : String
  definition_en : String
  definition_vi : String
  level : String
  examples : List ExampleOut
deriving Repr, DecidableEq

/-- The assembled `LookupWordResponseDto` of a database hit. -/
structure LookupResponse where
  word : String
  pronunciations : List PronOut
  definitions : List DefOut
  word_forms : Option (List (String × String))
  synonyms : Option (List String)
  frequency_rank : Option Int
deriving Repr, DecidableEq

/-- The call `pronunciationRepository.update(p.id, { audioUrl })`. -/
def updatePronAudio (db : Db) (pid : Nat) (a : String) : Db :=
  { db with
    pronunciations := db.pronunciations.map
      (fun r => if r.id = pid then { r with audioUrl := some a } else r) }

/-- The audio-backfill pass over the pronunciation rows of the word: a row
with a falsy `audioUrl` triggers `audioService.getAudioUrl(word,
p.accent)`; a truthy result is persisted to the row and used in the
response element, otherwise the stored value is kept. `fd` is the
free-dictionary oracle (per looked-up word). -/
def enrichProns (fd : String → Except Unit (List FDEntry)) (word : String) :
    List PronRow → Db → List PronOut × Db
  | [], db => ([], db)
  | p :: rest, db =>
      let outDb : PronOut × Db :=
        if truthy p.audioUrl then (⟨p.accent, p.ipa, p.audioUrl⟩, db)
        else
          let a := getAudioUrl (fd word) p.accent
          if truthy a then
            (⟨p.accent, p.ipa, a⟩, updatePronAudio db p.id (a.getD ""))
          else
            (⟨p.accent, p.ipa, p.audioUrl⟩, db)
      let restOut := enrichProns fd word rest outDb.2
      (outDb.1 :: restOut.1, restOut.2)

/-- The assignment `wordFormsObj[form.formType] = form.formWord`: JS object
assignment,
replacing in place when the key exists and appending otherwise. -/
def upsertForm (l : List (String × String)) (k v : String) : List (String × String) :=
  if l.any (·.1 = k) then l.map (fun kv => if kv.1 = k then (k, v) else kv)
  else l ++ [(k, v)]

/-- Phase `// Build word forms object`: fold the word-form rows into the
object. -/
def buildWordForms : List WordFormRow → List (String × String) → List (String × String)
  | [], acc => acc
  | f :: rest, acc => buildWordForms rest (upsertForm acc f.formType f.formWord)

/-- Project a (sorted) definition row to its response element, with its
examples fetched by `definitionId`. -/
def defToOut (db : Db) (d : DefRow) : DefOut :=
  ⟨d.partOfSpeech, d.definitionEn, d.definitionVi, d.level,
    (db.examples.filter (fun ex => ex.definitionId = d.id)).map
      (fun ex => ⟨ex.exampleEn, ex.exampleVi⟩)⟩

/-- The method `DictionaryService.findWordInDatabase`: find the word row by literal
word or normalized key; on a hit, backfill audio, fetch synonyms, fold
word forms, and assemble the response with definitions sorted by
`definitionOrder` (the JS `sort` comparator `a.definitionOrder -
b.definitionOrder` is a stable sort per ES2019, embedded as the stable
`insertionSort`). Returns the response together with the store as
mutated by the audio backfill. -/
def findWordInDatabase (fd : String → Except Unit (List FDEntry))
    (db : Db) (word : String) : Option (LookupResponse × Db) :=
  match db.words.find? (fun r => r.word = word || r.wordNormalized = word) with
  | none => none
  | some w =>
      let prons := db.pronunciations.filter (fun r => r.wordId = w.id)
      let enriched := enrichProns fd word prons db
      let db' := enriched.2
      let syns := db.synonyms.filter (fun r => r.wordId = w.id)
      let formsObj := buildWordForms (db.wordForms.filter (fun r => r.wordId = w.id)) []
      let defRows := List.insertionSort
        (fun a b => a.definitionOrder ≤ b.definitionOrder)
        (db.definitions.filter (fun r => r.wordId = w.id))
      (some
        ({ word := w.word,
           pronunciations := enriched.1,
           definitions := defRows.map (defToOut db),
           word_forms := if formsObj.isEmpty then none else some formsObj,
           synonyms := if syns.isEmpty then none
             else some (syns.map (·.synonymWord)),
           frequency_rank := w.frequencyRank }, db'))

/-! ## lookupWord (dictionary.service.ts lines 112-141) -/

/-- What a lookup returns: a response assembled from the store, or the
generative client output passed through as-is (kept at the
extracted-JSON-text level, see `generateWordWithLLM`). -/
inductive LookupAnswer where
  | stored (r : LookupResponse)
  | generated (json : String)
deriving Repr, DecidableEq

/-- The observable outcome of one lookup: its result, the store afterwards,
and how many completion-endpoint calls were made. -/
structure LookupOutcome where
  result : Except DictError LookupAnswer
  db : Db
  llmCalls : Nat
deriving Repr

/-- The method `DictionaryService.lookupWord`: lowercase and trim the input, try
the store, and on a miss delegate to `generateWordWithLLM` (counting the
completion call) without writing the store. -/
def lookupWord (fd : String → Except Unit (List FDEntry))
    (llm : String → String) (db : Db) (word : String) : LookupOutcome :=
  match findWordInDatabase fd db (jsTrim (jsToLower word)) with
  | some resDb => ⟨.ok (.stored resDb.1), resDb.2, 0⟩
  | none =>
      match generateWordWithLLM llm (jsTrim (jsToLower word)) with
      | .ok j => ⟨.ok (.generated j), db, 1⟩
      | .error e => ⟨.error e, db, 1⟩

/-! ## Helper lemmas: JSON extraction -/

/-- A string with neither brace character. -/
def braceFree (s : String) : Bool :=
  s.data.all (fun c => c ≠ lbrace && c ≠ rbrace)

theorem extractBraced_embed (a b c : List Char)
    (ha : ∀ x ∈ a, x ≠ lbrace ∧ x ≠ rbrace)
    (hc : ∀ x ∈ c, x ≠ lbrace ∧ x ≠ rbrace)
    (hb1 : b.head? = some lbrace) (hb2 : b.getLast? = some rbrace) :
    extractBraced (a ++ b ++ c) = some b := by
  obtain ⟨b0, bt, rfl⟩ : ∃ b0 bt, b = b0 :: bt := by
    cases b with
    | nil => simp at hb1
    | cons b0 bt => exact ⟨b0, bt, rfl⟩
  have hb0 : b0 = lbrace := by simpa using hb1
  subst hb0
  have h1 : (a ++ (lbrace :: bt) ++ c).dropWhile (· ≠ lbrace) = (lbrace :: bt) ++ c := by
    rw [List.append_assoc, List.dropWhile_append_of_pos
      (by intro x hx; simpa using (ha x hx).1)]
    simp
  have h2 : ((lbrace :: bt) ++ c).reverse.dropWhile (· ≠ rbrace)
      = (lbrace :: bt).reverse := by
    rw [List.reverse_append, List.dropWhile_append_of_pos
      (by intro x hx; simp only [List.mem_reverse] at hx; simpa using (hc x hx).2)]
    have hrev : ∃ rt, (lbrace :: bt).reverse = rbrace :: rt := by
      have hh : (lbrace :: bt).reverse.head? = some rbrace := by
        rw [List.head?_reverse]; exact hb2
      cases hr : (lbrace :: bt).reverse with
      | nil => rw [hr] at hh; simp at hh
      | cons r0 rt =>
          rw [hr] at hh
          simp only [List.head?_cons, Option.some.injEq] at hh
          exact ⟨rt, by rw [hh]⟩
    obtain ⟨rt, hrt⟩ := hrev
    rw [hrt]
    simp
  rw [extractBraced, h1, h2]
  simp

theorem dropWhile_head_false {p : α → Bool} {l : List α} {x : α} {t : List α}
    (h : l.dropWhile p = x :: t) : p x = false := by
  induction l with
  | nil => simp at h
  | cons a l ih =>
      by_cases hp : p a
      · rw [List.dropWhile_cons_of_pos hp] at h; exact ih h
      · rw [List.dropWhile_cons_of_neg hp] at h
        cases h
        simpa using hp

theorem extractBraced_none_of_no_pair (cs : List Char)
    (h : hasBracePair cs = false) : extractBraced cs = none := by
  unfold hasBracePair at h
  cases hrest : cs.dropWhile (· ≠ lbrace) with
  | nil => rw [extractBraced, hrest]; simp
  | cons x t =>
      have hx : x = lbrace := by
        have := dropWhile_head_false hrest
        simpa using this
      subst hx
      rw [hrest] at h
      simp only [List.drop_succ_cons, List.drop_zero] at h
      have hnil : (lbrace :: t).reverse.dropWhile (· ≠ rbrace) = [] := by
        apply List.dropWhile_eq_nil_iff.mpr
        intro y hy
        simp only [List.mem_reverse, List.mem_cons] at hy
        rcases hy with rfl | hy
        · simp [lbrace, rbrace]
        · have : y ≠ rbrace := by
            intro hcon
            subst hcon
            rw [List.contains_eq_any_beq] at h
            simp only [List.any_eq_false] at h
            exact (h rbrace hy) (by simp)
          simpa using this
      rw [extractBraced, hrest, hnil]
      simp

/-- C3. JSON extraction from a completion takes the substring from the
first opening brace to the last closing brace, so for every completion
consisting of an embedded brace-delimited JSON object surrounded by
brace-free leading and trailing prose, extraction yields exactly the
embedded object. -/
theorem C3_json_extraction (p1 j p2 : String)
    (h1 : braceFree p1 = true) (h2 : braceFree p2 = true)
    (hj1 : j.data.head? = some lbrace) (hj2 : j.data.getLast? = some rbrace) :
    extractJson (p1 ++ j ++ p2) = some j := by
  unfold extractJson
  have hdata : (p1 ++ j ++ p2).data = p1.data ++ j.data ++ p2.data := by
    simp [String.data_append]
  rw [hdata, extractBraced_embed p1.data j.data p2.data
    (by intro x hx; simpa using List.all_eq_true.mp h1 x hx)
    (by intro x hx; simpa using List.all_eq_true.mp h2 x hx) hj1 hj2]
  cases j
  rfl

/-- Witness for C3 at the example given in the spec: prose around a small JSON
object. -/
theorem C3_json_extraction_witness :
    extractJson ("Sure, here:\n" ++ "\x7b\x22word\x22:\x22x\x22\x7d" ++ "\nHope that helps")
      = some "\x7b\x22word\x22:\x22x\x22\x7d" :=
  C3_json_extraction "Sure, here:\n" "\x7b\x22word\x22:\x22x\x22\x7d" "\nHope that helps"
    (by decide) (by decide) (by decide) (by decide)

/-- C4. For every completion text with no brace pair, the generative
lookup fails with the classified `Failed to parse dictionary data`
error (mapped to `DictError.generationUnparsable`), not with a raw
`JSON.parse` exception: the brace match is checked before any parsing
happens. -/
theorem C4_unparsable_classified (llm : String → String) (word : String)
    (h : hasBracePair ((jsTrim (llm word)).data) = false) :
    generateWordWithLLM llm word = .error .generationUnparsable := by
  unfold generateWordWithLLM extractJson
  rw [extractBraced_none_of_no_pair _ h]
  rfl

/-- Witness for C4: a completion with no braces at all. -/
theorem C4_unparsable_classified_witness :
    generateWordWithLLM (fun _ => "Sorry, I cannot help with that.") "hello"
      = .error .generationUnparsable :=
  C4_unparsable_classified (fun _ => "Sorry, I cannot help with that.") "hello"
    (by decide)

/-! ## Helper lemmas: audio classification and resolution -/

theorem jsOr_some_of_ne {s : String} (h : s ≠ "") (b : Option String) :
    jsOr (some s) b = some s := by
  simp [jsOr, truthy, h]

theorem jsOr_none (b : Option String) : jsOr none b = b := by
  simp [jsOr, truthy]

/-- The classification loop never stores the empty string in a bucket
(every stored URL passed a JS truthiness check). -/
theorem classifyAudio_ok {r : AudioResult} {u : String}
    (hus : r.us ≠ some "") (huk : r.uk ≠ some "") (hu : u ≠ "") :
    (classifyAudio r u).us ≠ some "" ∧ (classifyAudio r u).uk ≠ some "" := by
  unfold classifyAudio
  split
  · exact ⟨by simpa using hu, huk⟩
  · split
    · exact ⟨hus, by simpa using hu⟩
    · split
      · exact ⟨by simpa using hu, huk⟩
      · exact ⟨hus, huk⟩

theorem classifyPhonetics_ok {r : AudioResult} {l : List Phonetic}
    (hus : r.us ≠ some "") (huk : r.uk ≠ some "") :
    (classifyPhonetics r l).us ≠ some "" ∧ (classifyPhonetics r l).uk ≠ some "" := by
  induction l generalizing r with
  | nil => exact ⟨hus, huk⟩
  | cons ph rest ih =>
      unfold classifyPhonetics
      by_cases hph : truthy ph.audio
      · have hne : ph.audio.getD "" ≠ "" := by
          simpa [truthy] using hph
        have h := classifyAudio_ok hus huk hne
        simpa [hph] using ih h.1 h.2
      · simpa [hph] using ih hus huk

theorem classifyEntries_ok {r : AudioResult} {l : List FDEntry}
    (hus : r.us ≠ some "") (huk : r.uk ≠ some "") :
    (classifyEntries r l).us ≠ some "" ∧ (classifyEntries r l).uk ≠ some "" := by
  induction l generalizing r with
  | nil => exact ⟨hus, huk⟩
  | cons e rest ih =>
      unfold classifyEntries
      have h := @classifyPhonetics_ok r e.phonetics hus huk
      exact ih h.1 h.2

theorem fetchAudio_ok (resp : Except Unit (List FDEntry)) :
    (fetchAudioFromFreeDictionary resp).us ≠ some "" ∧
    (fetchAudioFromFreeDictionary resp).uk ≠ some "" := by
  unfold fetchAudioFromFreeDictionary
  match resp with
  | .error _ => exact ⟨by simp, by simp⟩
  | .ok data =>
      by_cases hd : data.isEmpty
      · simp [hd]
      · simpa [hd] using @classifyEntries_ok ⟨none, none⟩ data
          (by simp) (by simp)

/-- C5. Audio resolution follows a preference order with cross-accent
fallback: a US-accent request returns the US-bucket URL if present,
otherwise the UK-bucket URL, otherwise nothing; symmetrically a
UK-accent request prefers UK, falls back to US, then nothing. -/
theorem C5_audio_preference (resp : Except Unit (List FDEntry)) :
    (∀ u, (fetchAudioFromFreeDictionary resp).us = some u →
      getAudioUrl resp "US" = some u) ∧
    ((fetchAudioFromFreeDictionary resp).us = none →
      getAudioUrl resp "US" = (fetchAudioFromFreeDictionary resp).uk) ∧
    (∀ u, (fetchAudioFromFreeDictionary resp).uk = some u →
      getAudioUrl resp "UK" = some u) ∧
    ((fetchAudioFromFreeDictionary resp).uk = none →
      getAudioUrl resp "UK" = (fetchAudioFromFreeDictionary resp).us) := by
  obtain ⟨hus, huk⟩ := fetchAudio_ok resp
  refine ⟨?_, ?_, ?_, ?_⟩
  · intro u h
    have hu : u ≠ "" := fun hcon => hus (by rw [h, hcon])
    simp [getAudioUrl, h, jsOr_some_of_ne hu]
  · intro h
    cases hk : (fetchAudioFromFreeDictionary resp).uk with
    | none => simp [getAudioUrl, h, hk, jsOr_none]
    | some v =>
        have hv : v ≠ "" := fun hcon => huk (by rw [hk, hcon])
        simp [getAudioUrl, h, hk, jsOr_none, jsOr_some_of_ne hv]
  · intro u h
    have hu : u ≠ "" := fun hcon => huk (by rw [h, hcon])
    simp [getAudioUrl, h, jsOr_some_of_ne hu]
  · intro h
    cases hk : (fetchAudioFromFreeDictionary resp).us with
    | none => simp [getAudioUrl, h, hk, jsOr_none]
    | some v =>
        have hv : v ≠ "" := fun hcon => hus (by rw [hk, hcon])
        simp [getAudioUrl, h, hk, jsOr_none, jsOr_some_of_ne hv]

/-- Witness for C5: only a UK URL is known, and a US-accent request
falls back to it. -/
theorem C5_audio_preference_witness :
    getAudioUrl (Except.ok [⟨"hello", [⟨none, some "x-uk.mp3"⟩]⟩]) "US"
      = (fetchAudioFromFreeDictionary
          (Except.ok [⟨"hello", [⟨none, some "x-uk.mp3"⟩]⟩])).uk :=
  (C5_audio_preference (Except.ok [⟨"hello", [⟨none, some "x-uk.mp3"⟩]⟩])).2.1
    (by decide)

/-- Counterexample to C6 as stated: the URL `/uk/hello-us.mp3` contains
the UK pattern `/uk/`, yet it is never placed in the UK bucket — the
`else if` gives the US patterns precedence, so it lands in the US
bucket only. -/
theorem C6_counterexample :
    containsSub "/uk/hello-us.mp3" "/uk/" = true ∧
    (classifyAudio ⟨none, none⟩ "/uk/hello-us.mp3").uk = none ∧
    (classifyAudio ⟨none, none⟩ "/uk/hello-us.mp3").us = some "/uk/hello-us.mp3" ∧
    (fetchAudioFromFreeDictionary
      (Except.ok [⟨"hello", [⟨none, some "/uk/hello-us.mp3"⟩]⟩])).uk = none := by
  refine ⟨by decide, by decide, by decide, by decide⟩

/-- C6 (amended). Every URL containing `-us.mp3` or `/us/` is placed in
the US bucket; every URL containing `-uk.mp3` or `/uk/` and matching
neither US pattern is placed in the UK bucket (the US patterns take
precedence through the `else if`); a URL matching neither pattern is
defaulted into the US bucket if and only if both buckets are still
empty (falsy) at the moment it is processed. -/
theorem C6_classification_amended (r : AudioResult) (u : String) :
    ((containsSub u "-us.mp3" || containsSub u "/us/") = true →
      (classifyAudio r u).us = some u ∧ (classifyAudio r u).uk = r.uk) ∧
    ((containsSub u "-us.mp3" || containsSub u "/us/") = false →
      (containsSub u "-uk.mp3" || containsSub u "/uk/") = true →
      (classifyAudio r u).uk = some u ∧ (classifyAudio r u).us = r.us) ∧
    ((containsSub u "-us.mp3" || containsSub u "/us/") = false →
      (containsSub u "-uk.mp3" || containsSub u "/uk/") = false →
      ((truthy r.us = false ∧ truthy r.uk = false →
          classifyAudio r u = ⟨some u, r.uk⟩) ∧
        (truthy r.us = true ∨ truthy r.uk = true → classifyAudio r u = r))) := by
  refine ⟨?_, ?_, ?_⟩
  · intro h
    simp [classifyAudio, h]
  · intro h1 h2
    simp [classifyAudio, h1, h2]
  · intro h1 h2
    constructor
    · intro ⟨e1, e2⟩
      simp [classifyAudio, h1, h2, e1, e2]
    · intro he
      rcases he with he | he <;> simp [classifyAudio, h1, h2, he]

/-- Witness for C6 (amended): a UK-only-pattern URL goes to the UK
bucket. -/
theorem C6_classification_amended_witness :
    (classifyAudio ⟨none, none⟩ "a-uk.mp3").uk = some "a-uk.mp3" ∧
    (classifyAudio ⟨none, none⟩ "a-uk.mp3").us = none :=
  (C6_classification_amended ⟨none, none⟩ "a-uk.mp3").2.1 (by decide) (by decide)

/-! ## Helper lemmas: lookup hit path -/

theorem getAudioUrl_error (accent : String) :
    getAudioUrl (Except.error ()) accent = none := by
  unfold getAudioUrl fetchAudioFromFreeDictionary
  by_cases h : accent = "US" <;> simp [h, jsOr_none]

theorem enrichProns_error (word : String) (l : List PronRow) (db : Db) :
    enrichProns (fun _ => Except.error ()) word l db
      = (l.map (fun p => ⟨p.accent, p.ipa, p.audioUrl⟩), db) := by
  induction l generalizing db with
  | nil => rfl
  | cons p rest ih =>
      unfold enrichProns
      by_cases hp : truthy p.audioUrl <;>
        simp [hp, getAudioUrl_error, truthy, ih]

/-- Canonical shape of a `findWordInDatabase` hit. -/
theorem findWordInDatabase_eq_some {fd : String → Except Unit (List FDEntry)}
    {db : Db} {word : String} {w : WordRow}
    (hfind : db.words.find? (fun r => r.word = word || r.wordNormalized = word)
      = some w) :
    findWordInDatabase fd db word = some
      (⟨w.word,
        (enrichProns fd word
          (db.pronunciations.filter (fun r => r.wordId = w.id)) db).1,
        (List.insertionSort (fun a b => a.definitionOrder ≤ b.definitionOrder)
          (db.definitions.filter (fun r => r.wordId = w.id))).map (defToOut db),
        (if (buildWordForms (db.wordForms.filter (fun r => r.wordId = w.id))
            []).isEmpty
          then none
          else some (buildWordForms
            (db.wordForms.filter (fun r => r.wordId = w.id)) [])),
        (if (db.synonyms.filter (fun r => r.wordId = w.id)).isEmpty then none
          else some ((db.synonyms.filter (fun r => r.wordId = w.id)).map
            (·.synonymWord))),
        w.frequencyRank⟩,
      (enrichProns fd word
        (db.pronunciations.filter (fun r => r.wordId = w.id)) db).2) := by
  unfold findWordInDatabase
  rw [hfind]

/-- A `findWordInDatabase` miss is exactly a `find?` miss. -/
theorem findWordInDatabase_eq_none {fd : String → Except Unit (List FDEntry)}
    {db : Db} {word : String}
    (hfind : db.words.find? (fun r => r.word = word || r.wordNormalized = word)
      = none) :
    findWordInDatabase fd db word = none := by
  unfold findWordInDatabase
  rw [hfind]

/-- C8. Any failure of the external phonetic-data call makes the audio
resolver return nothing instead of raising, and a hit-path lookup still
assembles and returns its response (with the stored audio fields
untouched and the store unchanged) even when every per-pronunciation
audio call fails. -/
theorem C8_audio_failure_absorbed :
    (∀ accent, getAudioUrl (Except.error ()) accent = none) ∧
    (∀ (db : Db) (word : String) (wrow : WordRow),
      db.words.find? (fun r => r.word = word || r.wordNormalized = word)
        = some wrow →
      ∃ resp, findWordInDatabase (fun _ => Except.error ()) db word
          = some (resp, db) ∧
        resp.pronunciations
          = (db.pronunciations.filter (fun r => r.wordId = wrow.id)).map
              (fun p => ⟨p.accent, p.ipa, p.audioUrl⟩)) := by
  refine ⟨getAudioUrl_error, ?_⟩
  intro db word wrow h
  have heq := @findWordInDatabase_eq_some (fun _ => Except.error ()) db word wrow h
  rw [enrichProns_error] at heq
  exact ⟨_, heq, rfl⟩

/-- Witness for C8: a one-word store whose only pronunciation misses its
audio URL; the lookup assembles with `audio_url = none` and writes
nothing. -/
theorem C8_audio_failure_absorbed_witness :
    ∃ resp,
      findWordInDatabase (fun _ => Except.error ())
          ⟨3, [⟨1, "hello", "hello", "en", none, []⟩],
            [⟨2, 1, "US", "/ipa/", none⟩], [], [], [], []⟩ "hello"
        = some (resp,
            ⟨3, [⟨1, "hello", "hello", "en", none, []⟩],
              [⟨2, 1, "US", "/ipa/", none⟩], [], [], [], []⟩) ∧
      resp.pronunciations
        = (([⟨2, 1, "US", "/ipa/", none⟩] : List PronRow).filter
            (fun r => r.wordId = (1 : Nat))).map
            (fun p => ⟨p.accent, p.ipa, p.audioUrl⟩) :=
  C8_audio_failure_absorbed.2
    ⟨3, [⟨1, "hello", "hello", "en", none, []⟩],
      [⟨2, 1, "US", "/ipa/", none⟩], [], [], [], []⟩ "hello"
    ⟨1, "hello", "hello", "en", none, []⟩ (by decide)

/-- C9. In every lookup response assembled from the store, the
definitions list is made of the stored definition rows of the word sorted ascending
by their `definitionOrder` field, regardless of the order in which the
rows sit in the store. -/
theorem C9_definitions_sorted (fd : String → Except Unit (List FDEntry))
    (db : Db) (word : String) (resp : LookupResponse) (db' : Db)
    (h : findWordInDatabase fd db word = some (resp, db')) :
    ∃ wrow rows,
      db.words.find? (fun r => r.word = word || r.wordNormalized = word)
        = some wrow ∧
      rows.Perm (db.definitions.filter (fun r => r.wordId = wrow.id)) ∧
      List.Pairwise (fun a b => a.definitionOrder ≤ b.definitionOrder) rows ∧
      resp.definitions = rows.map (defToOut db) := by
  cases hfind : db.words.find?
      (fun r => r.word = word || r.wordNormalized = word) with
  | none =>
      rw [findWordInDatabase_eq_none hfind] at h
      simp at h
  | some w =>
      rw [findWordInDatabase_eq_some hfind] at h
      simp only [Option.some.injEq, Prod.mk.injEq] at h
      haveI : IsTotal DefRow (fun a b => a.definitionOrder ≤ b.definitionOrder) :=
        ⟨fun a b => Nat.le_total _ _⟩
      haveI : IsTrans DefRow (fun a b => a.definitionOrder ≤ b.definitionOrder) :=
        ⟨fun _ _ _ hab hbc => Nat.le_trans hab hbc⟩
      refine ⟨w, List.insertionSort
        (fun a b => a.definitionOrder ≤ b.definitionOrder)
        (db.definitions.filter (fun r => r.wordId = w.id)), rfl,
        List.perm_insertionSort _ _, ?_, ?_⟩
      · exact List.sorted_insertionSort _ _
      · rw [← h.1]

/-- Witness for C9: two definitions stored with orders 2 and 1 come back
sorted 1 then 2. -/
theorem C9_definitions_sorted_witness :
    (∃ wrow rows,
      (⟨4, [⟨1, "run", "run", "en", none, []⟩], [],
          [⟨2, 1, "noun", "b", "b2", "intermediate", 2⟩,
           ⟨3, 1, "verb", "a", "a2", "beginner", 1⟩], [], [], []⟩ : Db).words.find?
          (fun r => r.word = "run" || r.wordNormalized = "run") = some wrow ∧
      rows.Perm ((⟨4, [⟨1, "run", "run", "en", none, []⟩], [],
          [⟨2, 1, "noun", "b", "b2", "intermediate", 2⟩,
           ⟨3, 1, "verb", "a", "a2", "beginner", 1⟩], [], [], []⟩ : Db).definitions.filter
            (fun r => r.wordId = wrow.id)) ∧
      List.Pairwise (fun a b => a.definitionOrder ≤ b.definitionOrder) rows ∧
      ((findWordInDatabase (fun _ => Except.error ())
          ⟨4, [⟨1, "run", "run", "en", none, []⟩], [],
            [⟨2, 1, "noun", "b", "b2", "intermediate", 2⟩,
             ⟨3, 1, "verb", "a", "a2", "beginner", 1⟩], [], [], []⟩ "run").get
          (by decide)).1.definitions = rows.map (defToOut
            ⟨4, [⟨1, "run", "run", "en", none, []⟩], [],
              [⟨2, 1, "noun", "b", "b2", "intermediate", 2⟩,
               ⟨3, 1, "verb", "a", "a2", "beginner", 1⟩], [], [], []⟩)) :=
  C9_definitions_sorted (fun _ => Except.error ())
    ⟨4, [⟨1, "run", "run", "en", none, []⟩], [],
      [⟨2, 1, "noun", "b", "b2", "intermediate", 2⟩,
       ⟨3, 1, "verb", "a", "a2", "beginner", 1⟩], [], [], []⟩ "run" _ _
    (by rfl)

/-! ## Lookup orchestration claims -/

/-- C10. For every store hit, the `word` field of the lookup response is
the stored case-preserving word rather than the caller input: the
input is lowercased and trimmed before matching against either the
literal word or the normalized key, and the response carries the matched
stored `word` of the matched row. -/
theorem C10_stored_word_returned (fd : String → Except Unit (List FDEntry))
    (llm : String → String) (db : Db) (word : String) (resp : LookupResponse)
    (h : (lookupWord fd llm db word).result = .ok (.stored resp)) :
    ∃ wrow,
      db.words.find? (fun r =>
          r.word = jsTrim (jsToLower word) ||
          r.wordNormalized = jsTrim (jsToLower word)) = some wrow ∧
      resp.word = wrow.word := by
  cases hfind : db.words.find? (fun r =>
      r.word = jsTrim (jsToLower word) ||
      r.wordNormalized = jsTrim (jsToLower word)) with
  | none =>
      unfold lookupWord at h
      rw [findWordInDatabase_eq_none hfind] at h
      cases hg : generateWordWithLLM llm (jsTrim (jsToLower word)) <;>
        simp [hg] at h
  | some w =>
      unfold lookupWord at h
      rw [findWordInDatabase_eq_some hfind] at h
      simp only [Except.ok.injEq, LookupAnswer.stored.injEq] at h
      exact ⟨w, rfl, by rw [← h]⟩

/-- Witness for C10: looking up `"Hello"` against a store whose entry is
`"hello"` returns the stored lower-case word. -/
theorem C10_stored_word_returned_witness :
    ∃ wrow,
      (⟨2, [⟨1, "hello", "hello", "en", none, []⟩], [], [], [], [], []⟩ :
          Db).words.find? (fun r =>
          r.word = jsTrim (jsToLower "Hello") ||
          r.wordNormalized = jsTrim (jsToLower "Hello")) = some wrow ∧
      (⟨"hello", [], [], none, none, none⟩ : LookupResponse).word = wrow.word :=
  C10_stored_word_returned (fun _ => Except.error ()) (fun _ => "")
    ⟨2, [⟨1, "hello", "hello", "en", none, []⟩], [], [], [], [], []⟩ "Hello"
    ⟨"hello", [], [], none, none, none⟩ (by rfl)

/-- C2. On a store miss, `lookupWord` returns the generative client
output as-is and performs no write to the store: the store afterwards is
the store before, exactly one completion call is made, and a repeated
lookup of the same absent word makes the completion call again. -/
theorem C2_miss_not_persisted (fd : String → Except Unit (List FDEntry))
    (llm : String → String) (db : Db) (word : String)
    (h : db.words.find? (fun r =>
        r.word = jsTrim (jsToLower word) ||
        r.wordNormalized = jsTrim (jsToLower word)) = none) :
    (lookupWord fd llm db word).db = db ∧
    (lookupWord fd llm db word).llmCalls = 1 ∧
    (lookupWord fd llm db word).result =
      (generateWordWithLLM llm (jsTrim (jsToLower word))).map
        LookupAnswer.generated ∧
    (lookupWord fd llm (lookupWord fd llm db word).db word).llmCalls = 1 := by
  have hmain : lookupWord fd llm db word =
      ⟨(generateWordWithLLM llm (jsTrim (jsToLower word))).map
        LookupAnswer.generated, db, 1⟩ := by
    unfold lookupWord
    rw [findWordInDatabase_eq_none h]
    cases hg : generateWordWithLLM llm (jsTrim (jsToLower word)) <;>
      simp [hg, Except.map]
  refine ⟨by rw [hmain], by rw [hmain], by rw [hmain], ?_⟩
  rw [hmain, hmain]

/-- Witness for C2: an empty store and a generative client that produces
parseable JSON. -/
theorem C2_miss_not_persisted_witness :
    (lookupWord (fun _ => Except.error ())
        (fun _ => "here: \x7b\x22word\x22:\x22serendipity\x22\x7d")
        ⟨1, [], [], [], [], [], []⟩ "serendipity").db
      = ⟨1, [], [], [], [], [], []⟩ ∧
    (lookupWord (fun _ => Except.error ())
        (fun _ => "here: \x7b\x22word\x22:\x22serendipity\x22\x7d")
        ⟨1, [], [], [], [], [], []⟩ "serendipity").llmCalls = 1 ∧
    (lookupWord (fun _ => Except.error ())
        (fun _ => "here: \x7b\x22word\x22:\x22serendipity\x22\x7d")
        ⟨1, [], [], [], [], [], []⟩ "serendipity").result =
      (generateWordWithLLM
        (fun _ => "here: \x7b\x22word\x22:\x22serendipity\x22\x7d")
        (jsTrim (jsToLower "serendipity"))).map LookupAnswer.generated ∧
    (lookupWord (fun _ => Except.error ())
        (fun _ => "here: \x7b\x22word\x22:\x22serendipity\x22\x7d")
        (lookupWord (fun _ => Except.error ())
          (fun _ => "here: \x7b\x22word\x22:\x22serendipity\x22\x7d")
          ⟨1, [], [], [], [], [], []⟩ "serendipity").db "serendipity").llmCalls
      = 1 :=
  C2_miss_not_persisted (fun _ => Except.error ())
    (fun _ => "here: \x7b\x22word\x22:\x22serendipity\x22\x7d")
    ⟨1, [], [], [], [], [], []⟩ "serendipity" (by rfl)

/-! ## Helper lemmas: import merger -/

theorem importProns_untouched (wid : Nat) (l : List PronPayload) (db : Db) :
    (importProns wid l db).words = db.words ∧
    (importProns wid l db).definitions = db.definitions ∧
    (importProns wid l db).examples = db.examples ∧
    (importProns wid l db).wordForms = db.wordForms ∧
    (importProns wid l db).synonyms = db.synonyms := by
  induction l generalizing db with
  | nil => exact ⟨rfl, rfl, rfl, rfl, rfl⟩
  | cons p rest ih =>
      unfold importProns
      split
      · exact ih db
      · exact ih _

theorem importExamples_untouched (defId : Nat) (l : List ExamplePayload) (db : Db) :
    (importExamples defId l db).words = db.words ∧
    (importExamples defId l db).pronunciations = db.pronunciations ∧
    (importExamples defId l db).definitions = db.definitions ∧
    (importExamples defId l db).wordForms = db.wordForms ∧
    (importExamples defId l db).synonyms = db.synonyms := by
  induction l generalizing db with
  | nil => exact ⟨rfl, rfl, rfl, rfl, rfl⟩
  | cons ex rest ih =>
      unfold importExamples
      exact ih _

theorem importDefsFrom_untouched (wid : Nat) (l : List DefPayload) (i : Nat) (db : Db) :
    (importDefsFrom wid i l db).words = db.words ∧
    (importDefsFrom wid i l db).pronunciations = db.pronunciations ∧
    (importDefsFrom wid i l db).wordForms = db.wordForms ∧
    (importDefsFrom wid i l db).synonyms = db.synonyms := by
  induction l generalizing i db with
  | nil => exact ⟨rfl, rfl, rfl, rfl⟩
  | cons d rest ih =>
      unfold importDefsFrom
      obtain ⟨h1, h2, h3, h4⟩ := ih (i + 1)
        (importExamples db.nextId d.examples
          { db with
            nextId := db.nextId + 1,
            definitions := db.definitions ++
              [⟨db.nextId, wid, d.pos, d.definition_en, d.definition_vi,
                d.level.getD "intermediate", i + 1⟩] })
      obtain ⟨e1, e2, _, e4, e5⟩ := importExamples_untouched db.nextId d.examples
        { db with
          nextId := db.nextId + 1,
          definitions := db.definitions ++
            [⟨db.nextId, wid, d.pos, d.definition_en, d.definition_vi,
              d.level.getD "intermediate", i + 1⟩] }
      exact ⟨by rw [h1, e1], by rw [h2, e2], by rw [h3, e4], by rw [h4, e5]⟩

theorem importForms_untouched (wid : Nat) (l : List (String × String)) (db : Db) :
    (importForms wid l db).words = db.words ∧
    (importForms wid l db).pronunciations = db.pronunciations ∧
    (importForms wid l db).definitions = db.definitions ∧
    (importForms wid l db).examples = db.examples ∧
    (importForms wid l db).synonyms = db.synonyms := by
  induction l generalizing db with
  | nil => exact ⟨rfl, rfl, rfl, rfl, rfl⟩
  | cons kv rest ih =>
      obtain ⟨k, v⟩ := kv
      unfold importForms
      split
      · exact ih db
      · exact ih _

theorem importSyns_untouched (wid : Nat) (l : List String) (db : Db) :
    (importSyns wid l db).words = db.words ∧
    (importSyns wid l db).pronunciations = db.pronunciations ∧
    (importSyns wid l db).definitions = db.definitions ∧
    (importSyns wid l db).examples = db.examples ∧
    (importSyns wid l db).wordForms = db.wordForms := by
  induction l generalizing db with
  | nil => exact ⟨rfl, rfl, rfl, rfl, rfl⟩
  | cons syn rest ih =>
      unfold importSyns
      split
      · exact ih db
      · exact ih _

theorem importPhases_words (wid : Nat) (data : ImportPayload) (db : Db) :
    (importPhases wid data db).words = db.words := by
  unfold importPhases
  rw [(importSyns_untouched _ _ _).1, (importForms_untouched _ _ _).1,
    (importDefsFrom_untouched _ _ _ _).1, (importProns_untouched _ _ _).1]

theorem importProns_prons_append (wid : Nat) (l : List PronPayload) (db : Db) :
    ∃ ext, (importProns wid l db).pronunciations = db.pronunciations ++ ext := by
  induction l generalizing db with
  | nil => exact ⟨[], by simp [importProns]⟩
  | cons p rest ih =>
      unfold importProns
      split
      · exact ih db
      · obtain ⟨ext, hext⟩ := ih
          { db with
            nextId := db.nextId + 1,
            pronunciations := db.pronunciations ++
              [⟨db.nextId, wid, p.accent, p.ipa, p.audio_url⟩] }
        refine ⟨[⟨db.nextId, wid, p.accent, p.ipa, p.audio_url⟩] ++ ext, ?_⟩
        rw [hext]
        simp

theorem hasPron_mono {db : Db} {wid : Nat} {a : String} (wid' : Nat)
    (l : List PronPayload) (h : hasPron db wid a = true) :
    hasPron (importProns wid' l db) wid a = true := by
  obtain ⟨ext, hext⟩ := importProns_prons_append wid' l db
  unfold hasPron at h ⊢
  rw [hext, List.any_append, h]
  rfl

theorem importProns_covers (wid : Nat) (l : List PronPayload) (db : Db) :
    ∀ p ∈ l, hasPron (importProns wid l db) wid p.accent = true := by
  induction l generalizing db with
  | nil => intro p hp; simp at hp
  | cons q rest ih =>
      intro p hp
      unfold importProns
      rcases List.mem_cons.mp hp with rfl | hp'
      · split
        · next hcond => exact hasPron_mono wid rest hcond
        · apply hasPron_mono
          unfold hasPron
          simp
      · split
        · exact ih db p hp'
        · exact ih _ p hp'

theorem importProns_noop (wid : Nat) (l : List PronPayload) (db : Db)
    (h : ∀ p ∈ l, hasPron db wid p.accent = true) :
    importProns wid l db = db := by
  induction l with
  | nil => rfl
  | cons q rest ih =>
      unfold importProns
      rw [if_pos (h q (List.mem_cons_self q rest))]
      exact ih (fun p hp => h p (List.mem_cons_of_mem q hp))

theorem importForms_forms_append (wid : Nat) (l : List (String × String)) (db : Db) :
    ∃ ext, (importForms wid l db).wordForms = db.wordForms ++ ext := by
  induction l generalizing db with
  | nil => exact ⟨[], by simp [importForms]⟩
  | cons kv rest ih =>
      obtain ⟨k, v⟩ := kv
      unfold importForms
      split
      · exact ih db
      · obtain ⟨ext, hext⟩ := ih
          { db with
            nextId := db.nextId + 1,
            wordForms := db.wordForms ++ [⟨db.nextId, wid, k, v⟩] }
        refine ⟨[⟨db.nextId, wid, k, v⟩] ++ ext, ?_⟩
        rw [hext]
        simp

theorem hasForm_mono {db : Db} {wid : Nat} {k : String} (wid' : Nat)
    (l : List (String × String)) (h : hasForm db wid k = true) :
    hasForm (importForms wid' l db) wid k = true := by
  obtain ⟨ext, hext⟩ := importForms_forms_append wid' l db
  unfold hasForm at h ⊢
  rw [hext, List.any_append, h]
  rfl

theorem importForms_covers (wid : Nat) (l : List (String × String)) (db : Db) :
    ∀ kv ∈ l, hasForm (importForms wid l db) wid kv.1 = true := by
  induction l generalizing db with
  | nil => intro kv hkv; simp at hkv
  | cons q rest ih =>
      intro kv hkv
      obtain ⟨k, v⟩ := q
      unfold importForms
      rcases List.mem_cons.mp hkv with rfl | hkv'
      · split
        · next hcond => exact hasForm_mono wid rest hcond
        · apply hasForm_mono
          unfold hasForm
          simp
      · split
        · exact ih db kv hkv'
        · exact ih _ kv hkv'

theorem importForms_noop (wid : Nat) (l : List (String × String)) (db : Db)
    (h : ∀ kv ∈ l, hasForm db wid kv.1 = true) :
    importForms wid l db = db := by
  induction l with
  | nil => rfl
  | cons q rest ih =>
      obtain ⟨k, v⟩ := q
      unfold importForms
      rw [if_pos (h (k, v) (List.mem_cons_self (k, v) rest))]
      exact ih (fun kv hkv => h kv (List.mem_cons_of_mem (k, v) hkv))

theorem importSyns_syns_append (wid : Nat) (l : List String) (db : Db) :
    ∃ ext, (importSyns wid l db).synonyms = db.synonyms ++ ext := by
  induction l generalizing db with
  | nil => exact ⟨[], by simp [importSyns]⟩
  | cons s rest ih =>
      unfold importSyns
      split
      · exact ih db
      · obtain ⟨ext, hext⟩ := ih
          { db with
            nextId := db.nextId + 1,
            synonyms := db.synonyms ++ [⟨db.nextId, wid, s⟩] }
        refine ⟨[⟨db.nextId, wid, s⟩] ++ ext, ?_⟩
        rw [hext]
        simp

theorem hasSyn_mono {db : Db} {wid : Nat} {s : String} (wid' : Nat)
    (l : List String) (h : hasSyn db wid s = true) :
    hasSyn (importSyns wid' l db) wid s = true := by
  obtain ⟨ext, hext⟩ := importSyns_syns_append wid' l db
  unfold hasSyn at h ⊢
  rw [hext, List.any_append, h]
  rfl

theorem importSyns_covers (wid : Nat) (l : List String) (db : Db) :
    ∀ s ∈ l, hasSyn (importSyns wid l db) wid s = true := by
  induction l generalizing db with
  | nil => intro s hs; simp at hs
  | cons q rest ih =>
      intro s hs
      unfold importSyns
      rcases List.mem_cons.mp hs with rfl | hs'
      · split
        · next hcond => exact hasSyn_mono wid rest hcond
        · apply hasSyn_mono
          unfold hasSyn
          simp
      · split
        · exact ih db s hs'
        · exact ih _ s hs'

theorem importSyns_noop (wid : Nat) (l : List String) (db : Db)
    (h : ∀ s ∈ l, hasSyn db wid s = true) :
    importSyns wid l db = db := by
  induction l with
  | nil => rfl
  | cons q rest ih =>
      unfold importSyns
      rw [if_pos (h q (List.mem_cons_self q rest))]
      exact ih (fun s hs => h s (List.mem_cons_of_mem q hs))

theorem importDefsFrom_defs (wid : Nat) (l : List DefPayload) :
    ∀ (i : Nat) (db : Db),
    ∃ batch, (importDefsFrom wid i l db).definitions = db.definitions ++ batch ∧
      batch.map (·.definitionOrder) = List.range' (i + 1) l.length := by
  induction l with
  | nil => intro i db; exact ⟨[], by simp [importDefsFrom], by simp⟩
  | cons d rest ih =>
      intro i db
      unfold importDefsFrom
      obtain ⟨batch, h1, h2⟩ := ih (i + 1)
        (importExamples db.nextId d.examples
          { db with
            nextId := db.nextId + 1,
            definitions := db.definitions ++
              [⟨db.nextId, wid, d.pos, d.definition_en, d.definition_vi,
                d.level.getD "intermediate", i + 1⟩] })
      refine ⟨⟨db.nextId, wid, d.pos, d.definition_en, d.definition_vi,
        d.level.getD "intermediate", i + 1⟩ :: batch, ?_, ?_⟩
      · rw [h1, (importExamples_untouched _ _ _).2.2.1]
        simp
      · simp only [List.map_cons, h2, List.length_cons, List.range'_succ]

theorem importPhases_covers (wid : Nat) (data : ImportPayload) (db : Db) :
    (∀ p ∈ data.pronunciations,
      hasPron (importPhases wid data db) wid p.accent = true) ∧
    (∀ kv ∈ data.word_forms,
      hasForm (importPhases wid data db) wid kv.1 = true) ∧
    (∀ s ∈ data.synonyms, hasSyn (importPhases wid data db) wid s = true) := by
  unfold importPhases
  refine ⟨?_, ?_, ?_⟩
  · intro p hp
    unfold hasPron
    rw [(importSyns_untouched _ _ _).2.1, (importForms_untouched _ _ _).2.1,
      (importDefsFrom_untouched _ _ _ _).2.1]
    exact importProns_covers wid data.pronunciations db p hp
  · intro kv hkv
    unfold hasForm
    rw [(importSyns_untouched _ _ _).2.2.2.2]
    exact importForms_covers wid data.word_forms _ kv hkv
  · intro s hs
    exact importSyns_covers wid data.synonyms _ s hs

theorem importWordData_second (data : ImportPayload) (db1 : Db) (r : WordRow)
    (hfind : db1.words.find? (fun w => w.word = data.word) = some r)
    (hp : ∀ p ∈ data.pronunciations, hasPron db1 r.id p.accent = true)
    (hf : ∀ kv ∈ data.word_forms, hasForm db1 r.id kv.1 = true)
    (hs : ∀ s ∈ data.synonyms, hasSyn db1 r.id s = true) :
    (importWordData data db1).1 = importDefsFrom r.id 0 data.definitions db1 := by
  have h1 : importWordData data db1 = (importPhases r.id data db1, data.word) := by
    unfold importWordData
    rw [hfind]
  rw [h1]
  show importPhases r.id data db1 = _
  unfold importPhases
  rw [importProns_noop _ _ _ hp]
  have hf' : ∀ kv ∈ data.word_forms,
      hasForm (importDefsFrom r.id 0 data.definitions db1) r.id kv.1 = true := by
    intro kv hkv
    unfold hasForm
    rw [(importDefsFrom_untouched _ _ _ _).2.2.1]
    exact hf kv hkv
  rw [importForms_noop _ _ _ hf']
  have hs' : ∀ s ∈ data.synonyms,
      hasSyn (importDefsFrom r.id 0 data.definitions db1) r.id s = true := by
    intro s hs1
    unfold hasSyn
    rw [(importDefsFrom_untouched _ _ _ _).2.2.2]
    exact hs s hs1
  rw [importSyns_noop _ _ _ hs']

/-- C1. Import is partially idempotent: re-running `importWordData` with
the identical payload leaves the word, pronunciation, word-form, and
synonym tables exactly as the first run left them (each sub-record
insert is guarded by a check on its natural key), but always appends a
fresh batch of definition rows whose `definitionOrder` values run
sequentially from 1 over the input of that call, so definitions are
duplicated. -/
theorem C1_import_partial_idempotence (data : ImportPayload) (db : Db) :
    (importWordData data (importWordData data db).1).1.words
      = (importWordData data db).1.words ∧
    (importWordData data (importWordData data db).1).1.pronunciations
      = (importWordData data db).1.pronunciations ∧
    (importWordData data (importWordData data db).1).1.wordForms
      = (importWordData data db).1.wordForms ∧
    (importWordData data (importWordData data db).1).1.synonyms
      = (importWordData data db).1.synonyms ∧
    ∃ batch,
      (importWordData data (importWordData data db).1).1.definitions
        = (importWordData data db).1.definitions ++ batch ∧
      batch.map (·.definitionOrder) = List.range' 1 data.definitions.length := by
  have key : ∃ r, (importWordData data db).1.words.find?
        (fun w => w.word = data.word) = some r ∧
      (∀ p ∈ data.pronunciations,
        hasPron (importWordData data db).1 r.id p.accent = true) ∧
      (∀ kv ∈ data.word_forms,
        hasForm (importWordData data db).1 r.id kv.1 = true) ∧
      (∀ s ∈ data.synonyms, hasSyn (importWordData data db).1 r.id s = true) := by
    cases hfind : db.words.find? (fun w => w.word = data.word) with
    | some r0 =>
        have h1 : (importWordData data db).1 = importPhases r0.id data db := by
          unfold importWordData
          rw [hfind]
        refine ⟨r0, ?_, ?_, ?_, ?_⟩
        · rw [h1, importPhases_words]
          exact hfind
        · rw [h1]
          exact (importPhases_covers _ _ _).1
        · rw [h1]
          exact (importPhases_covers _ _ _).2.1
        · rw [h1]
          exact (importPhases_covers _ _ _).2.2
    | none =>
        have h1 : (importWordData data db).1 = importPhases db.nextId data
            { db with
              nextId := db.nextId + 1,
              words := db.words ++ [newWordRow data db.nextId] } := by
          unfold importWordData
          rw [hfind]
        refine ⟨newWordRow data db.nextId, ?_, ?_, ?_, ?_⟩
        · rw [h1, importPhases_words]
          show (db.words ++ [newWordRow data db.nextId]).find? _ = _
          rw [List.find?_append, hfind]
          simp [newWordRow]
        · rw [h1]
          exact (importPhases_covers _ _ _).1
        · rw [h1]
          exact (importPhases_covers _ _ _).2.1
        · rw [h1]
          exact (importPhases_covers _ _ _).2.2
  obtain ⟨r, hfind2, hp, hf, hs⟩ := key
  have hsec := importWordData_second data (importWordData data db).1 r hfind2 hp hf hs
  obtain ⟨batch, hb1, hb2⟩ :=
    importDefsFrom_defs r.id data.definitions 0 (importWordData data db).1
  refine ⟨?_, ?_, ?_, ?_, batch, ?_, ?_⟩
  · rw [hsec, (importDefsFrom_untouched _ _ _ _).1]
  · rw [hsec, (importDefsFrom_untouched _ _ _ _).2.1]
  · rw [hsec, (importDefsFrom_untouched _ _ _ _).2.2.1]
  · rw [hsec, (importDefsFrom_untouched _ _ _ _).2.2.2]
  · rw [hsec, hb1]
  · exact hb2

/-- Counterexample to C7 as stated: for a payload with two definitions
tagged `noun`, the part-of-speech tags of the created entry are
`["noun", "noun"]` — the payload POS tags with duplicates retained
(`definitions.map(d => d.pos)`), not their distinct set `["noun"]`. -/
theorem C7_counterexample :
    ((importWordData
        ⟨"run", none, none, none, [],
          [⟨"noun", "a", "b", none, []⟩, ⟨"noun", "c", "d", none, []⟩], [], []⟩
        ⟨1, [], [], [], [], [], []⟩).1.words.map (·.partOfSpeech))
      = [["noun", "noun"]] ∧
    (([⟨"noun", "a", "b", none, []⟩, ⟨"noun", "c", "d", none, []⟩] :
        List DefPayload).map (·.pos)).dedup = ["noun"] := by
  exact ⟨rfl, by decide⟩

/-- C7 (amended). When `importWordData` finds no existing row for the
literal word, it creates an entry whose normalized key defaults to the
lowercased word when not supplied and whose part-of-speech tags are the
POS tags of the payload definitions in payload order with duplicates retained
(not deduplicated); when a row already exists it is reused and the word
table is left entirely unchanged. -/
theorem C7_entry_creation_amended (data : ImportPayload) (db : Db) :
    (db.words.find? (fun r => r.word = data.word) = none →
      (importWordData data db).1.words
        = db.words ++ [newWordRow data db.nextId]) ∧
    (∀ r, db.words.find? (fun w => w.word = data.word) = some r →
      (importWordData data db).1.words = db.words) := by
  constructor
  · intro h
    have h1 : (importWordData data db).1 = importPhases db.nextId data
        { db with
          nextId := db.nextId + 1,
          words := db.words ++ [newWordRow data db.nextId] } := by
      unfold importWordData
      rw [h]
    rw [h1, importPhases_words]
  · intro r h
    have h1 : (importWordData data db).1 = importPhases r.id data db := by
      unfold importWordData
      rw [h]
    rw [h1, importPhases_words]

/-- Witness for C7 (amended): importing `run` into an empty store
creates exactly the defaulted row. -/
theorem C7_entry_creation_amended_witness :
    (importWordData
        ⟨"run", none, none, none, [],
          [⟨"noun", "a", "b", none, []⟩, ⟨"noun", "c", "d", none, []⟩], [], []⟩
        ⟨1, [], [], [], [], [], []⟩).1.words
      = [] ++ [newWordRow
          ⟨"run", none, none, none, [],
            [⟨"noun", "a", "b", none, []⟩, ⟨"noun", "c", "d", none, []⟩], [], []⟩ 1] :=
  (C7_entry_creation_amended
    ⟨"run", none, none, none, [],
      [⟨"noun", "a", "b", none, []⟩, ⟨"noun", "c", "d", none, []⟩], [], []⟩
    ⟨1, [], [], [], [], [], []⟩).1 (by rfl)

end EnglishLearning
